import Mathlib

/-! Verification development for the interactive Claude Code session manager.

The definitions below are a shallow embedding of the JavaScript sources:
  * `OutputDetector`       (src/unnamed/part_005)
  * `ClaudeCodeManager`    (src/unnamed/part_002)
  * `PTYSessionHandler`    (src/src/utils/PTYSessionHandler.js)
  * `SessionManager`       (src/src/managers/SessionManager.js)

Strings are modelled as Lean `String` / `List Char`; JavaScript `.length`
(UTF-16 code units) is modelled as the number of characters, which agrees
with JavaScript on all Basic-Multilingual-Plane text (every marker glyph
used by the code — U+23FA, U+273B, U+23BF, U+2026, U+00B7 — is in the BMP).
JavaScript regexes are translated character by character; each of the
patterns in the source is deterministic (no backtracking can change the
match), so the translations below are faithful left-to-right scanners.
-/

/-! Character classes used by the JavaScript regexes. -/

/-- JavaScript `\s` (whitespace class, also used by `trim()`). -/
def isJsWhite (c : Char) : Bool :=
  c = ' ' || c = '\t' || c = '\n' || c = '\r' || c = '\x0b' || c = '\x0c' ||
  c = '\u00A0' || c = '\u1680' || ('\u2000' ≤ c && c ≤ '\u200A') ||
  c = '\u2028' || c = '\u2029' || c = '\u202F' || c = '\u205F' ||
  c = '\u3000' || c = '\uFEFF'

/-- JavaScript line terminators (what `^`/`$` in `m`-mode split on, and what `.` refuses). -/
def isLineTerm (c : Char) : Bool :=
  c = '\n' || c = '\r' || c = '\u2028' || c = '\u2029'

/-- JavaScript `\w` — `[A-Za-z0-9_]`. -/
def isWordChar (c : Char) : Bool :=
  ('a' ≤ c && c ≤ 'z') || ('A' ≤ c && c ≤ 'Z') || ('0' ≤ c && c ≤ '9') || c = '_'

/-- Model of `command.toUpperCase()`, restricted to ASCII simple mapping (all
reserved tokens are ASCII). -/
def strToUpper (s : String) : String := String.mk (s.toList.map Char.toUpper)

/-- Case-insensitively consume the pattern `pat` from the front of `cs`
(the `i` regex flag; ASCII simple folding). -/
def dropCI : List Char → List Char → Option (List Char)
  | [], rest => some rest
  | _ :: _, [] => none
  | p :: ps, c :: rest => if c.toLower = p.toLower then dropCI ps rest else none

/-- Does `p` hold of `cs` or of one of its suffixes?  (Regex search: try a
match at every starting position.) -/
def anySuffix (p : List Char → Bool) : List Char → Bool
  | [] => p []
  | c :: rest => p (c :: rest) || anySuffix p rest

/-! Model of OutputDetector.isClaudeProcessing (part_005, lines 18–37). -/

/-- Length consumed by `\s+to\s+interrupt` (case-insensitively) at the front
of the list, if it matches there.  Each `\s+` is one or more whitespace
characters — line terminators included — taken greedily, which is exact
because `t` and `i` are not whitespace. -/
def tailEscMatch (cs : List Char) : Option Nat :=
  let w1 := cs.takeWhile isJsWhite
  if w1.isEmpty then none
  else
    match dropCI ['t', 'o'] (cs.drop w1.length) with
    | none => none
    | some r2 =>
      let w2 := r2.takeWhile isJsWhite
      if w2.isEmpty then none
      else
        match dropCI ['i', 'n', 't', 'e', 'r', 'r', 'u', 'p', 't'] (r2.drop w2.length) with
        | none => none
        | some _ => some (w1.length + 2 + w2.length + 9)

/-- Length consumed by `esc\s+to\s+interrupt` (case-insensitively) at the
front of the list, if it matches there. -/
def escAtLen (cs : List Char) : Option Nat :=
  match dropCI ['e', 's', 'c'] cs with
  | none => none
  | some r =>
    match tailEscMatch r with
    | none => none
    | some n => some (3 + n)

/-- Match of `/esc\s+to\s+interrupt/i` anchored at the front of the list. -/
def escInterruptAt (cs : List Char) : Bool := (escAtLen cs).isSome

/-- Search of `/esc\s+to\s+interrupt/i` anywhere in a character list. -/
def hasEscInterruptL (cs : List Char) : Bool := anySuffix escInterruptAt cs

/-- Check 1 of `isClaudeProcessing`: "esc to interrupt" in various formats. -/
def hasEscToInterrupt (s : String) : Bool := hasEscInterruptL s.toList

/-- Match of `/[✻⏺]\s*\w+…\s*\(\d+s\s*·/i` anchored at the front of the list. -/
def activeTimerAt : List Char → Bool
  | [] => false
  | c :: rest =>
    if c = '✻' || c = '⏺' then
      let r1 := rest.dropWhile isJsWhite
      let w := r1.takeWhile isWordChar
      if w.isEmpty then false
      else
        match r1.drop w.length with
        | '…' :: r3 =>
          (match r3.dropWhile isJsWhite with
           | '(' :: r5 =>
             let d := r5.takeWhile Char.isDigit
             if d.isEmpty then false
             else
               (match r5.drop d.length with
                | c7 :: r7 =>
                  if c7.toLower = 's' then
                    (match r7.dropWhile isJsWhite with
                     | '·' :: _ => true
                     | _ => false)
                  else false
                | _ => false)
           | _ => false)
        | _ => false
    else false

/-- Check 2 of `isClaudeProcessing`: active processing indicator with timer. -/
def hasActiveTimer (s : String) : Bool := anySuffix activeTimerAt s.toList

/-- Match of `/⎿\s*(Waiting|Running|Processing|Exploring)\.{2,}/i` anchored at
the front of the list. -/
def activeStatusAt : List Char → Bool
  | [] => false
  | c :: rest =>
    if c = '⎿' then
      let r1 := rest.dropWhile isJsWhite
      match (dropCI "Waiting".toList r1 <|> dropCI "Running".toList r1 <|>
             dropCI "Processing".toList r1 <|> dropCI "Exploring".toList r1) with
      | some ('.' :: '.' :: _) => true
      | _ => false
    else false

/-- Check 3 of `isClaudeProcessing`: "Waiting..." / "Running..." status. -/
def hasActiveStatus (s : String) : Bool := anySuffix activeStatusAt s.toList

/-- Model of `OutputDetector.isClaudeProcessing` (part_005, lines 18–37). -/
def isClaudeProcessing (s : String) : Bool :=
  hasEscToInterrupt s || hasActiveTimer s || hasActiveStatus s

/-! Model of OutputDetector.normalizeBufferContent (part_005, lines 42–69). -/

/-- Apply `f` to every maximal line-terminator-free run of characters, keeping
the terminators themselves: the shape of a JavaScript global multiline
replace of whole lines. `acc` holds the current line, reversed. -/
def mapLinesAux (f : List Char → List Char) (acc : List Char) : List Char → List Char
  | [] => f acc.reverse
  | c :: rest =>
    if isLineTerm c then f acc.reverse ++ c :: mapLinesAux f [] rest
    else mapLinesAux f (c :: acc) rest

/-- Per-line rewriting over a whole buffer. -/
def mapLines (f : List Char → List Char) (cs : List Char) : List Char :=
  mapLinesAux f [] cs

/-- Per-line action of `.replace(/^.*⏺.*$/gm, '')`: a line containing `⏺`
matches in full and is replaced by the empty string. -/
def stripSymbolLine (l : List Char) : List Char :=
  if l.contains '⏺' then [] else l

/-- Rightmost start, inside the current line, of a match of
`esc\s+to\s+interrupt` whose `\s+` parts may run past the line end; the
result is the index just after `interrupt`.  `idx` is the offset of `rem`
inside the scanned text and `best` the best success so far.  The regex
`/^.*esc\s+to\s+interrupt.*$/mi` commits to the greedy (longest) `.*`,
hence to the rightmost `esc` whose continuation matches; scanning left to
right and keeping the last success computes exactly that. -/
def scanLineEscGo (idx : Nat) (rem : List Char) (best : Option Nat) : Option Nat :=
  match rem with
  | [] => best
  | c :: rest =>
    if isLineTerm c then best
    else
      scanLineEscGo (idx + 1) rest
        (match escAtLen rem with
         | some n => some (idx + n)
         | none => best)

/-- Length of the match of `/^.*esc\s+to\s+interrupt.*$/mi` anchored at a
line start, if any: through `interrupt` via the rightmost in-line `esc`,
then `.*$` extends the match to the end of the line where `interrupt`
landed. -/
def lineEscSpan (cs : List Char) : Option Nat :=
  match scanLineEscGo 0 cs none with
  | none => none
  | some m => some (m + ((cs.drop m).takeWhile (fun c => !isLineTerm c)).length)

/-- Fuel-driven scanner for `.replace(/^.*esc\s+to\s+interrupt.*$/gmi, '')`:
`cs` always sits at a line start (string start or just after a line
terminator); a matching span — which can cover several lines, because the
`\s+` parts of the pattern match line terminators — is deleted and the
scan resumes after the terminator that follows it, otherwise the line is
copied.  Every step consumes at least one character, so `fuel =
cs.length` never runs out. -/
def stripEscSpansGo : Nat → List Char → List Char
  | 0, cs => cs
  | _ + 1, [] => []
  | fuel + 1, c :: rest =>
    match lineEscSpan (c :: rest) with
    | some e =>
      (match (c :: rest).drop e with
       | [] => []
       | t :: rest2 => t :: stripEscSpansGo fuel rest2)
    | none =>
      let line := (c :: rest).takeWhile (fun x => !isLineTerm x)
      (match (c :: rest).drop line.length with
       | [] => line
       | t :: rest2 => line ++ t :: stripEscSpansGo fuel rest2)

/-- Global action of `.replace(/^.*esc\s+to\s+interrupt.*$/gmi, '')`. -/
def stripEscSpans (cs : List Char) : List Char := stripEscSpansGo cs.length cs

/-- Length of the match of `\d+s\s*·[^)]*\)` immediately after an opening
parenthesis, if any (the timer pattern `(\d+s ·...)` minus its `(`). -/
def timerLen (cs : List Char) : Option Nat :=
  let ds := cs.takeWhile Char.isDigit
  if ds.isEmpty then none
  else
    match cs.drop ds.length with
    | 's' :: r2 =>
      let ws := r2.takeWhile isJsWhite
      (match r2.drop ws.length with
       | '·' :: r3 =>
         let body := r3.takeWhile (fun c => !(c = ')'))
         (match r3.drop body.length with
          | ')' :: _ => some (ds.length + 1 + ws.length + 1 + body.length + 1)
          | _ => none)
       | _ => none)
    | _ => none

/-- Scanner for `.replace(/\(\d+s\s*·[^)]*\)/g, '')`.  The `fuel` argument
only makes the recursion structural (each step consumes at least one
character, so `fuel = cs.length` never runs out); the scan itself mirrors a
left-to-right global replace. -/
def removeTimersGo : Nat → List Char → List Char
  | 0, cs => cs
  | _ + 1, [] => []
  | fuel + 1, c :: rest =>
    if c = '(' then
      match timerLen rest with
      | some n => removeTimersGo fuel (rest.drop n)
      | none => '(' :: removeTimersGo fuel rest
    else c :: removeTimersGo fuel rest

/-- Removal of every processing-timer token, `.replace(/\(\d+s\s*·[^)]*\)/g, '')`. -/
def removeTimers (cs : List Char) : List Char := removeTimersGo cs.length cs

/-- Fuel-driven scanner for `.replace(/[✻⎿]\s*/g, '')`. -/
def removeGlyphRunsGo : Nat → List Char → List Char
  | 0, cs => cs
  | _ + 1, [] => []
  | fuel + 1, c :: rest =>
    if c = '✻' || c = '⎿' then removeGlyphRunsGo fuel (rest.dropWhile isJsWhite)
    else c :: removeGlyphRunsGo fuel rest

/-- Removal of the decorative glyphs together with the whitespace run that
follows them, `.replace(/[✻⎿]\s*/g, '')`. -/
def removeGlyphRuns (cs : List Char) : List Char := removeGlyphRunsGo cs.length cs

/-- Length of the match of `[0-9;]*m` after `ESC[`, if any. -/
def ansiColorLen (cs : List Char) : Option Nat :=
  match cs with
  | '[' :: r1 =>
    let ps := r1.takeWhile (fun c => c.isDigit || c = ';')
    (match r1.drop ps.length with
     | 'm' :: _ => some (1 + ps.length + 1)
     | _ => none)
  | _ => none

/-- Fuel-driven scanner for `.replace(/\x1b\[[0-9;]*m/g, '')`. -/
def removeAnsiColorGo : Nat → List Char → List Char
  | 0, cs => cs
  | _ + 1, [] => []
  | fuel + 1, c :: rest =>
    if c = '\x1b' then
      match ansiColorLen rest with
      | some n => removeAnsiColorGo fuel (rest.drop n)
      | none => '\x1b' :: removeAnsiColorGo fuel rest
    else c :: removeAnsiColorGo fuel rest

/-- Stripping of ANSI colour sequences, `.replace(/\x1b\[[0-9;]*m/g, '')`. -/
def removeAnsiColor (cs : List Char) : List Char := removeAnsiColorGo cs.length cs

/-- Length of the match of `[0-9;]*[HfABCD]` after `ESC[`, if any. -/
def cursorSeqLen (cs : List Char) : Option Nat :=
  match cs with
  | '[' :: r1 =>
    let ps := r1.takeWhile (fun c => c.isDigit || c = ';')
    (match r1.drop ps.length with
     | c2 :: _ =>
       if c2 = 'H' || c2 = 'f' || c2 = 'A' || c2 = 'B' || c2 = 'C' || c2 = 'D'
       then some (1 + ps.length + 1) else none
     | _ => none)
  | _ => none

/-- Fuel-driven scanner for `.replace(/\x1b\[[0-9;]*[HfABCD]/g, '')`. -/
def removeCursorSeqsGo : Nat → List Char → List Char
  | 0, cs => cs
  | _ + 1, [] => []
  | fuel + 1, c :: rest =>
    if c = '\x1b' then
      match cursorSeqLen rest with
      | some n => removeCursorSeqsGo fuel (rest.drop n)
      | none => '\x1b' :: removeCursorSeqsGo fuel rest
    else c :: removeCursorSeqsGo fuel rest

/-- Stripping of cursor-position sequences, `.replace(/\x1b\[[0-9;]*[HfABCD]/g, '')`. -/
def removeCursorSeqs (cs : List Char) : List Char := removeCursorSeqsGo cs.length cs

/-- Fuel-driven scanner for `.replace(/\s+/g, ' ')`. -/
def collapseWsGo : Nat → List Char → List Char
  | 0, cs => cs
  | _ + 1, [] => []
  | fuel + 1, c :: rest =>
    if isJsWhite c then ' ' :: collapseWsGo fuel (rest.dropWhile isJsWhite)
    else c :: collapseWsGo fuel rest

/-- Collapsing of every whitespace run to a single space, `.replace(/\s+/g, ' ')`. -/
def collapseWs (cs : List Char) : List Char := collapseWsGo cs.length cs

/-- Model of JavaScript `String.prototype.trim()`. -/
def jsTrim (cs : List Char) : List Char :=
  ((cs.dropWhile isJsWhite).reverse.dropWhile isJsWhite).reverse

/-- Model of `trim()` on `String`. -/
def jsTrimStr (s : String) : String := String.mk (jsTrim s.toList)

/-- Model of `OutputDetector.normalizeBufferContent` (part_005, lines 42–69).
The guard `if (!buffer) return ''` is the empty-string falsy check; the
replace chain is applied in source order. -/
def normalizeBufferContent (s : String) : String :=
  if s = "" then ""
  else
    String.mk (jsTrim (collapseWs (removeCursorSeqs (removeAnsiColor
      (removeGlyphRuns (removeTimers
        (stripEscSpans (mapLines stripSymbolLine s.toList))))))))

/-! Agent data model (ClaudeCodeManager.createAgent, part_002 lines 77–105). -/

/-- Status values of `agent.status` used by the live code path. -/
inductive AgentStatus where
  | initializing
  | active
  | completed
  | error
  | terminated
deriving DecidableEq, Repr

/-- Speaker tag of a conversation-history entry (`type: 'user' | 'claude'`). -/
inductive MsgType where
  | user
  | claude
deriving DecidableEq, Repr

/-- One `conversationHistory` entry: `{type, content, timestamp}`. -/
structure HistEntry where
  type : MsgType
  content : String
  timestamp : Nat
deriving DecidableEq, Repr

/-- The agent record built by `createAgent`.  The PTY handle is modelled as
the spawned process id (`Option Nat`); timers are modelled as booleans
(present / cleared); timestamps are `Nat` values passed in by callers. -/
structure Agent where
  id : String
  chatId : String
  task : String
  ptyProcess : Option Nat
  status : AgentStatus
  fullOutput : String
  lastLines : List String
  expectingResponse : Bool
  outputBuffer : String
  lastSentOutput : String
  outputCheckTimer : Bool
  lastUserMessage : String
  isCheckingOutput : Bool
  conversationHistory : List HistEntry
  lastSentBuffer : String
  exitCode : Option Int
  exitSignal : Option Int
  completedAt : Option Nat
  startTime : Nat
deriving DecidableEq, Repr

/-- The record literal of `createAgent` (part_002, lines 77–105). -/
def initialAgent (taskId chatId task : String) (now : Nat) : Agent where
  id := taskId
  chatId := chatId
  task := task
  ptyProcess := none
  status := .initializing
  fullOutput := ""
  lastLines := []
  expectingResponse := false
  outputBuffer := ""
  lastSentOutput := ""
  outputCheckTimer := false
  lastUserMessage := task
  isCheckingOutput := false
  conversationHistory := [⟨.user, task, now⟩]
  lastSentBuffer := ""
  exitCode := none
  exitSignal := none
  completedAt := none
  startTime := now

/-- Events emitted through the manager's `EventEmitter`. -/
inductive Event where
  | agentOutput (agentId chatId text : String)
  | agentComplete (taskId : String) (code : Int) (fullOutput : String)
  | agentError (taskId : String)
  | scheduleCheck (agentId : String)
deriving DecidableEq, Repr

/-- The `text` payloads of the `agent-output` events in a list, in order. -/
def outputTexts (evs : List Event) : List String :=
  evs.filterMap fun e =>
    match e with
    | .agentOutput _ _ t => some t
    | _ => none

/-- The payloads of the `agent-complete` events in a list, in order. -/
def completePayloads (evs : List Event) : List (String × Int × String) :=
  evs.filterMap fun e =>
    match e with
    | .agentComplete i c f => some (i, c, f)
    | _ => none

/-! Model of OutputDetector.detectNewCommandOutput (part_005, lines 74–123). -/

/-- The decision record `{hasNewOutput, reason}`. -/
structure DetectionResult where
  hasNewOutput : Bool
  reason : String
deriving DecidableEq, Repr

/-- Absolute difference `Math.abs(a - b)` on lengths. -/
def absDiff (m n : Nat) : Nat := max m n - min m n

/-- Model of `OutputDetector.detectNewCommandOutput` (part_005, lines 74–123).
`agent.lastSentBuffer || ''` is the identity on the string-valued field. -/
def detectNewCommandOutput (a : Agent) : DetectionResult :=
  let isProcessing := isClaudeProcessing a.outputBuffer
  if !isProcessing && decide (1000 < a.outputBuffer.length) then
    let currentNormalized := normalizeBufferContent a.outputBuffer
    let lastSentNormalized := normalizeBufferContent a.lastSentBuffer
    let contentLengthDiff := absDiff currentNormalized.length lastSentNormalized.length
    if !(decide (currentNormalized = lastSentNormalized)) && decide (50 < contentLengthDiff) then
      { hasNewOutput := true,
        reason := "Claude finished processing with new content (" ++
                  toString contentLengthDiff ++ " new chars)" }
    else
      { hasNewOutput := false, reason := "Waiting for more output" }
  else
    { hasNewOutput := false,
      reason := if isProcessing then "Still processing" else "Waiting for more output" }

/-! Model of ClaudeCodeManager.checkAndSendOutput (part_002, lines 379–538). -/

/-- Model of `checkAndSendOutput`, parameterised by the detection call so that the
`catch` fallback (an exception raised while classifying/normalising the
buffer) can be analysed: `detect` is the body of the `try` up to and
including `detectNewCommandOutput`.  Returns the updated agent and the
events emitted.  The commented-out AI-filter branches of the source are
dead code and are not modelled. -/
def checkAndSendOutputGen (detect : Agent → Except Unit DetectionResult)
    (a : Agent) (forceSend : Bool) (now : Nat) : Agent × List Event :=
  if a.isCheckingOutput && !forceSend then (a, [])
  else
    let a0 := { a with isCheckingOutput := true }
    let currentLastLines := String.intercalate "\n" a0.lastLines
    if !forceSend && decide (currentLastLines = a0.lastSentOutput) then
      ({ a0 with isCheckingOutput := false }, [])
    else if !forceSend && decide ((jsTrimStr currentLastLines).length = 0) then
      ({ a0 with isCheckingOutput := false }, [])
    else
      match detect a0 with
      | .error _ =>
        -- catch: "Fallback: send the output anyway", then finally
        ({ a0 with
             conversationHistory := a0.conversationHistory ++ [⟨.claude, a0.outputBuffer, now⟩],
             outputBuffer := "",
             isCheckingOutput := false },
         [.agentOutput a0.id a0.chatId a0.outputBuffer])
      | .ok detection =>
        if !detection.hasNewOutput then ({ a0 with isCheckingOutput := false }, [])
        else
          ({ a0 with
               conversationHistory := a0.conversationHistory ++ [⟨.claude, a0.outputBuffer, now⟩],
               lastSentBuffer := a0.outputBuffer,
               outputBuffer := "",
               lastSentOutput := currentLastLines,
               isCheckingOutput := false },
           [.agentOutput a0.id a0.chatId a0.outputBuffer])

/-- The non-throwing detection call of the live code path. -/
def detectOk (a : Agent) : Except Unit DetectionResult := .ok (detectNewCommandOutput a)

/-- Model of `checkAndSendOutput` with the real detector. -/
def checkAndSendOutput (a : Agent) (forceSend : Bool) (now : Nat) : Agent × List Event :=
  checkAndSendOutputGen detectOk a forceSend now

/-! Model of PTYSessionHandler (src/src/utils/PTYSessionHandler.js). -/

/-- Model of `PTYSessionHandler.createSession` (lines 16–59): spawn the PTY (modelled
by `spawnOk` / the fresh `pid`), set the agent `active`, and — after the
startup delay — `sendInitialTask` writes the task text and then the Enter
key.  On spawn failure an `agent-error` event is emitted and the agent is
left untouched.  Writes are tagged with the pid they go to. -/
def createSessionModel (a : Agent) (task : String) (spawnOk : Bool) (pid : Nat) :
    Agent × List Event × List (Nat × String) :=
  if spawnOk then
    ({ a with ptyProcess := some pid, status := .active }, [], [(pid, task), (pid, "\r")])
  else
    (a, [.agentError a.id], [])

/-- Model of `PTYSessionHandler.handleOutput` (lines 64–89), agent-state part:
append the chunk to `fullOutput` and `outputBuffer` and recompute
`lastLines` as the last 10 non-blank lines of `fullOutput`. -/
def handleOutputAgent (a : Agent) (data : String) : Agent :=
  let fullOutput := a.fullOutput ++ data
  let lines := fullOutput.splitOn "\n"
  { a with
      fullOutput := fullOutput,
      outputBuffer := a.outputBuffer ++ data,
      lastLines := (lines.drop (lines.length - 10)).filter fun l => !(jsTrimStr l = "") }

/-- Model of `PTYSessionHandler.handleExit` (lines 94–124): clear timers, null the
handle, mark `completed`, record exit info, run one forced
`checkAndSendOutput` pass, then emit `agent-complete` with the full
output. -/
def handleExit (a : Agent) (exitCode : Int) (signal : Option Int) (now : Nat) :
    Agent × List Event :=
  let a1 := { a with
                outputCheckTimer := false,
                ptyProcess := none,
                status := .completed,
                exitCode := some exitCode,
                exitSignal := signal,
                completedAt := some now }
  let r := checkAndSendOutput a1 true now
  (r.1, r.2 ++ [.agentComplete a1.id exitCode r.1.fullOutput])

/-- The reserved control tokens of `sendCommand`. -/
def reservedTokens : List String :=
  ["ESCAPE", "ENTER", "EXIT", "UP", "DOWN", "LEFT", "RIGHT"]

/-- Model of `PTYSessionHandler.sendCommand` (lines 151–205).  Throws (`Except.error`)
when the handle is gone or the agent is not `active`; a reserved token
(after `toUpperCase()`) writes its control sequence only; any other string
is written as text, recorded in `conversationHistory`, and followed by a
delayed Enter key. -/
def ptySendCommand (a : Agent) (command : String) (now : Nat) :
    Except String (Agent × List (Nat × String)) :=
  match a.ptyProcess with
  | none => .error "PTY session inactive"
  | some p =>
    if !(a.status = .active) then .error "PTY session inactive"
    else
      let u := strToUpper command
      if u = "ESCAPE" then .ok (a, [(p, "\x1b")])
      else if u = "ENTER" then .ok (a, [(p, "\r")])
      else if u = "EXIT" then .ok (a, [(p, "\\exit\r\n")])
      else if u = "UP" then .ok (a, [(p, "\x1b[A")])
      else if u = "DOWN" then .ok (a, [(p, "\x1b[B")])
      else if u = "LEFT" then .ok (a, [(p, "\x1b[D")])
      else if u = "RIGHT" then .ok (a, [(p, "\x1b[C")])
      else
        .ok ({ a with
                 lastUserMessage := command,
                 conversationHistory := a.conversationHistory ++ [⟨.user, command, now⟩] },
             [(p, command), (p, "\r")])

/-! Model of ClaudeCodeManager.sendCommand (part_002, lines 321–349). -/

/-- The field resets of the restart branch (part_002, lines 330–333). -/
def restartReset (a : Agent) : Agent :=
  { a with status := .initializing, exitCode := none, exitSignal := none, completedAt := none }

/-- Result of a `sendCommand` call: the updated agent, emitted events, PTY
writes, and whether the 3-second follow-up output check was scheduled. -/
structure SendOutcome where
  agent : Agent
  events : List Event
  writes : List (Nat × String)
  scheduledCheck : Bool
deriving DecidableEq, Repr

/-- Model of `ClaudeCodeManager.sendCommand` (part_002, lines 321–349), at the level of
one agent record (the registry lookup raises `Agent not found` upstream).
If the agent is `completed` or has no live PTY process it is restarted in
place via `createSessionModel` with `command` as the new task; otherwise
the command is forwarded to the PTY, and for a non-reserved command an
immediate output check is scheduled 3 seconds later. -/
def managerSendCommand (a : Agent) (command : String) (now : Nat)
    (newPid : Nat) (spawnOk : Bool) : Except String SendOutcome :=
  if a.status = .completed || decide (a.ptyProcess = none) then
    let r := createSessionModel (restartReset a) command spawnOk newPid
    .ok { agent := r.1, events := r.2.1, writes := r.2.2, scheduledCheck := false }
  else
    match ptySendCommand a command now with
    | .error e => .error e
    | .ok (a2, ws) =>
      .ok { agent := a2, events := [], writes := ws,
            scheduledCheck := !(reservedTokens.contains (strToUpper command)) }

/-! The agent registry (ClaudeCodeManager.activeAgents, part_002). -/

/-- The `activeAgents` map, as a finite partial map from agent id to record. -/
def Registry := String → Option Agent

/-- The empty map of the constructor. -/
def emptyRegistry : Registry := fun _ => none

/-- The kill loop at the top of `createAgent` (part_002, lines 69–76): every
agent whose `chatId` equals the new chat id is passed to `killAgent`,
which clears its timers, kills its process and deletes its entry. -/
def killChatAgents (reg : Registry) (chatId : String) : Registry :=
  fun i =>
    match reg i with
    | some ag => if ag.chatId = chatId then none else some ag
    | none => none

/-- Model of `ClaudeCodeManager.killAgent` (part_002, lines 543–558) on the registry:
the entry is deleted (its timers and process are torn down). -/
def killAgentReg (reg : Registry) (agentId : String) : Registry :=
  fun i => if i = agentId then none else reg i

/-- Model of `ClaudeCodeManager.createAgent` (part_002, lines 68–116): kill all agents
of the chat, build the fresh record, store it under `taskId`, then bind a
PTY session to it (the stored object is mutated in place, so the map ends
up holding the post-`createSession` record). -/
def createAgentModel (reg : Registry) (chatId taskId task : String) (now : Nat)
    (spawnOk : Bool) (pid : Nat) : Registry :=
  let reg1 := killChatAgents reg chatId
  let ag := initialAgent taskId chatId task now
  let ag2 := (createSessionModel ag task spawnOk pid).1
  fun i => if i = taskId then some ag2 else reg1 i

/-- One `createAgent(chatId, taskId, task)` invocation, with its spawn
outcome. -/
structure CreateCall where
  chatId : String
  taskId : String
  task : String
  now : Nat
  spawnOk : Bool
  pid : Nat

/-- Run a sequence of `createAgent` calls left to right. -/
def applyCreates (reg : Registry) : List CreateCall → Registry
  | [] => reg
  | c :: cs => applyCreates (createAgentModel reg c.chatId c.taskId c.task c.now c.spawnOk c.pid) cs

/-- An agent counts against the single-session invariant when it is
`Initializing` or `Active`. -/
def isLive (ag : Agent) : Prop := ag.status = .initializing ∨ ag.status = .active

/-- At most one live agent per conversation: any two live entries with the
same `chatId` are the same entry. -/
def atMostOneLivePerChat (reg : Registry) : Prop :=
  ∀ i j ai aj, reg i = some ai → reg j = some aj →
    ai.chatId = aj.chatId → isLive ai → isLive aj → i = j

/-! Model of SessionManager.addToConversationHistory (SessionManager.js, lines 275–296). -/

/-- The history update of `SessionManager.addToConversationHistory`: push the
entry, then `slice(-20)` whenever the length exceeds 20. -/
def addToHistory (h : List HistEntry) (e : HistEntry) : List HistEntry :=
  let h2 := h ++ [e]
  if 20 < h2.length then h2.drop (h2.length - 20) else h2

/-! Session traces (PTY callbacks and manager entry points interleaved). -/

/-- The single-loop callbacks that can touch one agent record. -/
inductive SessionOp where
  | ptyData (s : String)
  | outputCheck (force : Bool) (now : Nat)
  | processExit (code : Int) (signal : Option Int) (now : Nat)
  | userCommand (cmd : String) (now : Nat) (newPid : Nat) (spawnOk : Bool)

/-- Dispatch one callback, accumulating emitted events. -/
def applyOp (st : Agent × List Event) (op : SessionOp) : Agent × List Event :=
  match op with
  | .ptyData s => (handleOutputAgent st.1 s, st.2 ++ [.scheduleCheck st.1.id])
  | .outputCheck f now =>
    let r := checkAndSendOutput st.1 f now
    (r.1, st.2 ++ r.2)
  | .processExit c sig now =>
    let r := handleExit st.1 c sig now
    (r.1, st.2 ++ r.2)
  | .userCommand cmd now pid ok =>
    match managerSendCommand st.1 cmd now pid ok with
    | .error _ => st
    | .ok out => (out.agent, st.2 ++ out.events)

/-- A whole session of one agent: `createAgent` (record + spawn) followed by
any sequence of callbacks. -/
def runSession (taskId chatId task : String) (now0 : Nat) (pid0 : Nat)
    (ops : List SessionOp) : Agent × List Event :=
  ops.foldl applyOp ((createSessionModel (initialAgent taskId chatId task now0) task true pid0).1, [])

/-! Shared lemmas about the detector and the output pipeline. -/

/-- A positive flush decision implies all four gate conditions of
`detectNewCommandOutput`: not processing, buffer above 1000 characters,
normalized contents differ, and the normalized length gap exceeds 50. -/
theorem detect_hasNew_imp (a : Agent) (h : (detectNewCommandOutput a).hasNewOutput = true) :
    isClaudeProcessing a.outputBuffer = false ∧ 1000 < a.outputBuffer.length ∧
    normalizeBufferContent a.outputBuffer ≠ normalizeBufferContent a.lastSentBuffer ∧
    50 < absDiff (normalizeBufferContent a.outputBuffer).length
      (normalizeBufferContent a.lastSentBuffer).length := by
  unfold detectNewCommandOutput at h
  simp only [] at h
  split at h
  · rename_i hcond
    split at h
    · rename_i hinner
      simp only [Bool.and_eq_true, Bool.not_eq_true', decide_eq_true_eq,
        decide_eq_false_iff_not] at hcond hinner
      exact ⟨hcond.1, hcond.2, hinner.1, hinner.2⟩
    · simp at h
  · simp at h

/-- A buffer of at most 1000 characters never produces a flush decision. -/
theorem detect_small (a : Agent) (h : a.outputBuffer.length ≤ 1000) :
    (detectNewCommandOutput a).hasNewOutput = false := by
  cases hh : (detectNewCommandOutput a).hasNewOutput
  · rfl
  · have := (detect_hasNew_imp a hh).2.1; omega

/-- A buffer classified as processing never produces a flush decision. -/
theorem detect_processing (a : Agent) (h : isClaudeProcessing a.outputBuffer = true) :
    (detectNewCommandOutput a).hasNewOutput = false := by
  cases hh : (detectNewCommandOutput a).hasNewOutput
  · rfl
  · have := (detect_hasNew_imp a hh).1; rw [h] at this; cases this

/-- Equal normalizations never produce a flush decision. -/
theorem detect_norm_eq (a : Agent)
    (h : normalizeBufferContent a.outputBuffer = normalizeBufferContent a.lastSentBuffer) :
    (detectNewCommandOutput a).hasNewOutput = false := by
  cases hh : (detectNewCommandOutput a).hasNewOutput
  · rfl
  · exact absurd h (detect_hasNew_imp a hh).2.2.1

/-- Every code path of `checkAndSendOutputGen` leaves `fullOutput` intact,
emits exactly the flushed prefix of the pending buffer, and emits no
completion event. -/
theorem check_frame (d : Agent → Except Unit DetectionResult) (a : Agent) (f : Bool) (now : Nat) :
    (checkAndSendOutputGen d a f now).1.fullOutput = a.fullOutput ∧
    String.join (outputTexts (checkAndSendOutputGen d a f now).2) ++
      (checkAndSendOutputGen d a f now).1.outputBuffer = a.outputBuffer ∧
    completePayloads (checkAndSendOutputGen d a f now).2 = [] := by
  unfold checkAndSendOutputGen
  simp only []
  split
  · simp [outputTexts, completePayloads, String.join]
  · split
    · simp [outputTexts, completePayloads, String.join]
    · split
      · simp [outputTexts, completePayloads, String.join]
      · split
        · simp [outputTexts, completePayloads, String.join]
        · split
          · simp [outputTexts, completePayloads, String.join]
          · simp [outputTexts, completePayloads, String.join]

/-- Specialisation of `check_frame` to the live detector. -/
theorem check_frame_out (a : Agent) (f : Bool) (now : Nat) :
    (checkAndSendOutput a f now).1.fullOutput = a.fullOutput ∧
    String.join (outputTexts (checkAndSendOutput a f now).2) ++
      (checkAndSendOutput a f now).1.outputBuffer = a.outputBuffer ∧
    completePayloads (checkAndSendOutput a f now).2 = [] :=
  check_frame detectOk a f now

/-- Completion payloads distribute over event-list concatenation. -/
theorem completePayloads_append (l1 l2 : List Event) :
    completePayloads (l1 ++ l2) = completePayloads l1 ++ completePayloads l2 :=
  List.filterMap_append l1 l2 _

/-- Output texts distribute over event-list concatenation. -/
theorem outputTexts_append (l1 l2 : List Event) :
    outputTexts (l1 ++ l2) = outputTexts l1 ++ outputTexts l2 :=
  List.filterMap_append l1 l2 _

/-- A lone completion event carries no output text. -/
theorem outputTexts_complete (i : String) (c : Int) (f : String) :
    outputTexts [.agentComplete i c f] = [] := rfl

/-- A lone scheduling event carries no output text. -/
theorem outputTexts_schedule (i : String) : outputTexts [.scheduleCheck i] = [] := rfl

/-- Joining no strings gives the empty string. -/
theorem join_nil : String.join [] = "" := rfl

/-- Folding append over strings factors out the seed. -/
theorem foldl_append_str (l : List String) (s : String) :
    l.foldl (fun a b => a ++ b) s = s ++ l.foldl (fun a b => a ++ b) "" := by
  induction l generalizing s with
  | nil => simp
  | cons t l ih =>
    simp only [List.foldl_cons]
    rw [ih (s ++ t), ih ("" ++ t)]
    simp [String.append_assoc]

/-- Unfolding rule of `String.join` on a cons cell. -/
theorem join_cons (s : String) (l : List String) :
    String.join (s :: l) = s ++ String.join l := by
  simp only [String.join, List.foldl_cons]
  rw [foldl_append_str l ("" ++ s)]
  simp [String.append_assoc]

/-- Distributivity of `String.join` over list concatenation. -/
theorem join_append (l1 l2 : List String) :
    String.join (l1 ++ l2) = String.join l1 ++ String.join l2 := by
  induction l1 with
  | nil => simp [String.join]
  | cons s l ih => simp [join_cons, ih, String.append_assoc]

/-- Folding output chunks appends their concatenation to `fullOutput` and
preserves the agent id. -/
theorem foldl_handleOutput (chunks : List String) (ag : Agent) :
    (chunks.foldl handleOutputAgent ag).fullOutput = ag.fullOutput ++ String.join chunks ∧
    (chunks.foldl handleOutputAgent ag).id = ag.id := by
  induction chunks generalizing ag with
  | nil => simp [String.join]
  | cons c cs ih =>
    simp only [List.foldl_cons]
    obtain ⟨h1, h2⟩ := ih (handleOutputAgent ag c)
    refine ⟨?_, by rw [h2]; rfl⟩
    rw [h1, join_cons]
    simp [handleOutputAgent, String.append_assoc]

/-- Exactly one completion event is emitted on process exit, and it carries
the agent's full accumulated output. -/
theorem handleExit_completes (b : Agent) (code : Int) (sig : Option Int) (now2 : Nat) :
    completePayloads (handleExit b code sig now2).2 = [(b.id, code, b.fullOutput)] := by
  unfold handleExit
  simp only []
  rw [completePayloads_append, (check_frame_out _ true now2).2.2,
    (check_frame_out _ true now2).1]
  simp [completePayloads]

/-! Lemmas about the registry and the restart path. -/

/-- An entry surviving the kill loop was already registered and belongs to a
different conversation. -/
theorem killChat_some (reg : Registry) (c i : String) (ag : Agent)
    (h : killChatAgents reg c i = some ag) : reg i = some ag ∧ ag.chatId ≠ c := by
  unfold killChatAgents at h
  split at h
  · rename_i b heq
    split at h
    · cases h
    · rename_i hb
      cases h
      exact ⟨heq, hb⟩
  · cases h

/-- Binding a PTY session never changes the owning conversation. -/
theorem createSession_chatId (a : Agent) (task : String) (ok : Bool) (pid : Nat) :
    (createSessionModel a task ok pid).1.chatId = a.chatId := by
  unfold createSessionModel
  split <;> rfl

/-- One `createAgent` call preserves the single-live-session invariant. -/
theorem create_preserves (reg : Registry) (inv : atMostOneLivePerChat reg)
    (c t task : String) (now : Nat) (ok : Bool) (pid : Nat) :
    atMostOneLivePerChat (createAgentModel reg c t task now ok pid) := by
  intro i j ai aj hi hj hchat hli hlj
  unfold createAgentModel at hi hj
  by_cases hit : i = t <;> by_cases hjt : j = t
  · rw [hit, hjt]
  · rw [if_pos hit] at hi
    rw [if_neg hjt] at hj
    obtain ⟨-, hne⟩ := killChat_some _ _ _ _ hj
    injection hi with hi
    apply absurd _ hne
    rw [← hchat, ← hi, createSession_chatId]
    rfl
  · rw [if_neg hit] at hi
    rw [if_pos hjt] at hj
    obtain ⟨-, hne⟩ := killChat_some _ _ _ _ hi
    injection hj with hj
    apply absurd _ hne
    rw [hchat, ← hj, createSession_chatId]
    rfl
  · rw [if_neg hit] at hi
    rw [if_neg hjt] at hj
    obtain ⟨hi2, -⟩ := killChat_some _ _ _ _ hi
    obtain ⟨hj2, -⟩ := killChat_some _ _ _ _ hj
    exact inv i j ai aj hi2 hj2 hchat hli hlj

/-- A whole sequence of `createAgent` calls preserves the invariant. -/
theorem applyCreates_preserves (calls : List CreateCall) (reg : Registry)
    (inv : atMostOneLivePerChat reg) : atMostOneLivePerChat (applyCreates reg calls) := by
  induction calls generalizing reg with
  | nil => exact inv
  | cons cl cls ih =>
    exact ih _ (create_preserves reg inv cl.chatId cl.taskId cl.task cl.now cl.spawnOk cl.pid)

/-- The empty registry satisfies the invariant. -/
theorem empty_inv : atMostOneLivePerChat emptyRegistry := by
  intro i j ai aj hi
  cases hi

/-- The restart branch of `sendCommand` on a completed or process-less agent:
the same record is rebound to a fresh PTY session with the command as the
new task, through the `initializing` resets. -/
theorem restart_ok (a : Agent) (cmd : String) (now pid : Nat)
    (h : a.status = .completed ∨ a.ptyProcess = none) :
    managerSendCommand a cmd now pid true =
      .ok ⟨{ a with status := .active, exitCode := none, exitSignal := none,
                    completedAt := none, ptyProcess := some pid },
           [], [(pid, cmd), (pid, "\r")], false⟩ := by
  unfold managerSendCommand
  have hcond : (decide (a.status = .completed) || decide (a.ptyProcess = none)) = true := by
    rcases h with h | h <;> simp [h]
  simp only [hcond, if_true]
  simp [createSessionModel, restartReset]

/-! Lemmas about the conversation-history bound. -/

/-- One `addToConversationHistory` step keeps the last 20 entries. -/
theorem addToHistory_drop (h : List HistEntry) (e : HistEntry) :
    addToHistory h e = (h ++ [e]).drop ((h ++ [e]).length - 20) ∧
    (addToHistory h e).length ≤ 20 := by
  rw [show addToHistory h e =
      (if 20 < (h ++ [e]).length then (h ++ [e]).drop ((h ++ [e]).length - 20) else h ++ [e])
    from rfl]
  split
  · rename_i hgt
    refine ⟨rfl, ?_⟩
    simp only [List.length_drop]
    omega
  · rename_i hng
    simp only [not_lt] at hng
    have h0 : (h ++ [e]).length - 20 = 0 := by omega
    rw [h0, List.drop_zero]
    exact ⟨rfl, hng⟩

/-- Folding `addToConversationHistory` keeps exactly the last 20 appended
entries, in order. -/
theorem foldl_addToHistory (es : List HistEntry) (h : List HistEntry) (hle : h.length ≤ 20) :
    es.foldl addToHistory h = (h ++ es).drop ((h ++ es).length - 20) := by
  induction es generalizing h with
  | nil =>
    simp only [List.foldl_nil, List.append_nil]
    have h0 : h.length - 20 = 0 := by omega
    rw [h0, List.drop_zero]
  | cons e es ih =>
    simp only [List.foldl_cons]
    obtain ⟨hstep, hlen⟩ := addToHistory_drop h e
    rw [ih _ hlen, hstep]
    have hd : (h ++ [e]).length - 20 ≤ (h ++ [e]).length := by omega
    rw [← List.drop_append_of_le_length hd, List.drop_drop]
    have hsplit : h ++ e :: es = (h ++ [e]) ++ es := by simp
    rw [hsplit]
    congr 1
    simp only [List.length_append, List.length_drop, List.length_cons, List.length_nil]
    omega

/-! Frame lemmas for command forwarding and the trace invariant. -/

/-- Successful PTY command forwarding never changes the buffers. -/
theorem ptySend_frame (a : Agent) (cmd : String) (now : Nat) :
    ∀ r, ptySendCommand a cmd now = .ok r →
      r.1.outputBuffer = a.outputBuffer ∧ r.1.fullOutput = a.fullOutput := by
  intro r h
  unfold ptySendCommand at h
  split at h
  · cases h
  · split at h
    · cases h
    · simp only [] at h
      split at h
      · cases h; exact ⟨rfl, rfl⟩
      · split at h
        · cases h; exact ⟨rfl, rfl⟩
        · split at h
          · cases h; exact ⟨rfl, rfl⟩
          · split at h
            · cases h; exact ⟨rfl, rfl⟩
            · split at h
              · cases h; exact ⟨rfl, rfl⟩
              · split at h
                · cases h; exact ⟨rfl, rfl⟩
                · split at h
                  · cases h; exact ⟨rfl, rfl⟩
                  · cases h; exact ⟨rfl, rfl⟩

/-- A successful `sendCommand` call never changes the buffers and emits no
output event. -/
theorem mgr_frame (a : Agent) (cmd : String) (now pid : Nat) (ok : Bool) :
    ∀ out, managerSendCommand a cmd now pid ok = .ok out →
      out.agent.outputBuffer = a.outputBuffer ∧ out.agent.fullOutput = a.fullOutput ∧
      outputTexts out.events = [] := by
  unfold managerSendCommand
  split
  · intro out h
    cases h
    unfold createSessionModel restartReset
    split <;> simp [outputTexts]
  · split
    · intro out h; cases h
    · rename_i a2 ws heq
      intro out h
      cases h
      obtain ⟨h1, h2⟩ := ptySend_frame a cmd now (a2, ws) heq
      exact ⟨h1, h2, rfl⟩

/-- One callback preserves the flush-partition invariant. -/
theorem applyOp_inv (st : Agent × List Event) (op : SessionOp)
    (h : String.join (outputTexts st.2) ++ st.1.outputBuffer = st.1.fullOutput) :
    String.join (outputTexts (applyOp st op).2) ++ (applyOp st op).1.outputBuffer =
      (applyOp st op).1.fullOutput := by
  rcases op with s | ⟨f, now⟩ | ⟨c, sig, now⟩ | ⟨cmd, now, pid, ok⟩
  · simp only [applyOp, outputTexts_append, join_append, handleOutputAgent,
      outputTexts_schedule, join_nil, String.append_empty]
    rw [← String.append_assoc, h]
  · simp only [applyOp, outputTexts_append, join_append]
    obtain ⟨hf, hb, -⟩ := check_frame_out st.1 f now
    rw [String.append_assoc, hb, hf]
    exact h
  · simp only [applyOp, handleExit, outputTexts_append, join_append, outputTexts_complete,
      join_nil, String.append_empty]
    obtain ⟨hf, hb, -⟩ := check_frame_out { st.1 with
      outputCheckTimer := false, ptyProcess := none, status := .completed,
      exitCode := some c, exitSignal := sig, completedAt := some now } true now
    rw [String.append_assoc, hb, hf]
    exact h
  · simp only [applyOp]
    cases hm : managerSendCommand st.1 cmd now pid ok with
    | error e => exact h
    | ok out =>
      obtain ⟨h1, h2, h3⟩ := mgr_frame st.1 cmd now pid ok out hm
      simp only [outputTexts_append, join_append, h3, h1, h2, join_nil, String.append_empty]
      exact h

/-- A whole callback trace preserves the flush-partition invariant. -/
theorem run_inv (ops : List SessionOp) (st : Agent × List Event)
    (h : String.join (outputTexts st.2) ++ st.1.outputBuffer = st.1.fullOutput) :
    String.join (outputTexts (ops.foldl applyOp st).2) ++ (ops.foldl applyOp st).1.outputBuffer =
      (ops.foldl applyOp st).1.fullOutput := by
  induction ops generalizing st with
  | nil => exact h
  | cons op ops ih => exact ih _ (applyOp_inv st op h)

/-! Lemmas for the animation-noise property of the normalizer. -/

/-- Everything before the first explicit separator contributes a fixed prefix
to a per-line rewrite, independent of what follows the separator. -/
theorem mapLinesAux_decomp (g : List Char → List Char) (pre : List Char) :
    ∀ acc, ∃ u, ∀ rest,
      mapLinesAux g acc (pre ++ '\n' :: rest) = u ++ '\n' :: mapLinesAux g [] rest := by
  induction pre with
  | nil =>
    intro acc
    refine ⟨g acc.reverse, fun rest => ?_⟩
    simp [mapLinesAux, isLineTerm]
  | cons c cs ih =>
    intro acc
    by_cases hc : isLineTerm c = true
    · obtain ⟨u1, hu1⟩ := ih []
      refine ⟨g acc.reverse ++ c :: u1, fun rest => ?_⟩
      simp only [List.cons_append, List.append_eq, mapLinesAux, hc, if_true]
      rw [hu1 rest]
      simp
    · obtain ⟨u1, hu1⟩ := ih (c :: acc)
      refine ⟨u1, fun rest => ?_⟩
      simp only [List.cons_append, List.append_eq, mapLinesAux, hc, if_false]
      exact hu1 rest

/-- A terminator-free line delimited by separators is rewritten in place. -/
theorem mapLinesAux_line (g : List Char → List Char) (l : List Char)
    (hl : ∀ c ∈ l, isLineTerm c = false) :
    ∀ acc rest, mapLinesAux g acc (l ++ '\n' :: rest) =
      g (acc.reverse ++ l) ++ '\n' :: mapLinesAux g [] rest := by
  induction l with
  | nil =>
    intro acc rest
    simp [mapLinesAux, isLineTerm]
  | cons c cs ih =>
    intro acc rest
    have hc : isLineTerm c = false := hl c (List.mem_cons_self c cs)
    simp only [List.cons_append, List.append_eq, mapLinesAux, hc, Bool.false_eq_true, if_false]
    rw [ih (fun x hx => hl x (List.mem_cons_of_mem c hx)) (c :: acc) rest]
    simp

/-- Nonempty character lists make nonempty strings. -/
theorem mk_ne_empty (l : List Char) (hl : l ≠ []) : ¬(String.mk l = "") := by
  intro he
  apply hl
  have hd := congrArg String.data he
  simpa using hd

/-- The control sequence the `switch` of `PTYSessionHandler.sendCommand`
writes for each reserved token. -/
def ctrlSequence (u : String) : String :=
  if u = "ESCAPE" then "\x1b"
  else if u = "ENTER" then "\r"
  else if u = "EXIT" then "\\exit\r\n"
  else if u = "UP" then "\x1b[A"
  else if u = "DOWN" then "\x1b[B"
  else if u = "LEFT" then "\x1b[D"
  else "\x1b[C"

/-- A full elapsed-time timer token `(<digits>s<ws>·<body>)`. -/
def timerToken (ds ws body : List Char) : List Char :=
  '(' :: (ds ++ 's' :: (ws ++ '·' :: (body ++ [')'])))

theorem takeWhile_all (p : Char → Bool) (x : List Char) (h : ∀ a ∈ x, p a = true) :
    x.takeWhile p = x := by
  induction x with
  | nil => rfl
  | cons a x ih =>
    simp only [List.takeWhile_cons, h a (List.mem_cons_self a x), if_true]
    rw [ih (fun b hb => h b (List.mem_cons_of_mem a hb))]

theorem scan_stop (p : Char → Bool) (c : Char) (hc : p c = false) (x w : List Char) :
    (x ++ c :: w).takeWhile p = x.takeWhile p ∧
    (x ++ c :: w).drop ((x ++ c :: w).takeWhile p).length =
      x.drop (x.takeWhile p).length ++ c :: w := by
  induction x with
  | nil =>
    simp [List.takeWhile_cons, hc]
  | cons a x ih =>
    by_cases ha : p a = true
    · simp only [List.cons_append, List.takeWhile_cons, ha, if_true]
      refine ⟨by rw [ih.1], ?_⟩
      simp only [List.length_cons, List.drop_succ_cons]
      exact ih.2
    · simp only [List.cons_append, List.takeWhile_cons, ha]
      simp [Bool.not_eq_true] at ha
      simp [ha]

theorem timerLen_none_nocdot (x w : List Char) (hx : ∀ c ∈ x, ¬ c = '·') :
    timerLen (x ++ '(' :: w) = none := by
  unfold timerLen
  obtain ⟨hds, hrem⟩ := scan_stop Char.isDigit '(' (by decide) x w
  rw [hds] at hrem
  simp only [hds, hrem]
  split
  · rfl
  · have hx1mem : ∀ c ∈ x.drop (x.takeWhile Char.isDigit).length, ¬ c = '·' :=
      fun c hc => hx c (List.mem_of_mem_drop hc)
    cases hx1 : x.drop (x.takeWhile Char.isDigit).length with
    | nil => rfl
    | cons c x2 =>
      rw [hx1] at hx1mem
      simp only [List.cons_append]
      split
      · rename_i r2 heq
        injection heq with hc heq2
        subst heq2
        obtain ⟨hws, hwrem⟩ := scan_stop isJsWhite '(' (by decide) x2 w
        rw [hws] at hwrem
        simp only [hws, hwrem]
        split
        · rename_i r3 heq3
          exfalso
          cases hx3 : x2.drop (x2.takeWhile isJsWhite).length with
          | nil =>
            rw [hx3] at heq3
            cases heq3
          | cons c3 x4 =>
            rw [hx3] at heq3
            injection heq3 with hc3 heq4
            apply hx1mem c3
            · exact List.mem_cons_of_mem c (List.mem_of_mem_drop (hx3 ▸ List.mem_cons_self c3 x4))
            · exact hc3
        · rfl
      · rfl

theorem timerLen_token (ds ws body B : List Char)
    (hds : ¬ ds = []) (hdig : ∀ c ∈ ds, c.isDigit = true)
    (hws : ∀ c ∈ ws, isJsWhite c = true) (hb : ∀ c ∈ body, (!(c = ')')) = true) :
    timerLen (ds ++ 's' :: (ws ++ '·' :: (body ++ ')' :: B))) =
      some (ds.length + 1 + ws.length + 1 + body.length + 1) := by
  unfold timerLen
  have h1 : (ds ++ 's' :: (ws ++ '·' :: (body ++ ')' :: B))).takeWhile Char.isDigit = ds := by
    rw [(scan_stop Char.isDigit 's' (by decide) ds _).1, takeWhile_all Char.isDigit ds hdig]
  have h3 : (ws ++ '·' :: (body ++ ')' :: B)).takeWhile isJsWhite = ws := by
    rw [(scan_stop isJsWhite '·' (by decide) ws _).1, takeWhile_all isJsWhite ws hws]
  have h5 : (body ++ ')' :: B).takeWhile (fun c => !(c = ')')) = body := by
    rw [(scan_stop _ ')' (by decide) body _).1, takeWhile_all _ body hb]
  simp only [h1, List.drop_left]
  rw [if_neg (by simpa using hds)]
  simp only [h3, List.drop_left, h5]

theorem removeTimersGo_nil (fuel : Nat) : removeTimersGo fuel [] = [] := by
  cases fuel <;> rfl

theorem removeTimersGo_fuel (f1 : Nat) : ∀ (cs : List Char) (f2 : Nat),
    cs.length ≤ f1 → cs.length ≤ f2 → removeTimersGo f1 cs = removeTimersGo f2 cs := by
  induction f1 with
  | zero =>
    intro cs f2 h1 h2
    have : cs = [] := by
      cases cs
      · rfl
      · simp at h1
    rw [this, removeTimersGo_nil, removeTimersGo_nil]
  | succ f ih =>
    intro cs f2 h1 h2
    cases cs with
    | nil => rw [removeTimersGo_nil, removeTimersGo_nil]
    | cons c rest =>
      cases f2 with
      | zero => simp at h2
      | succ g =>
        simp only [removeTimersGo]
        simp only [List.length_cons] at h1 h2
        split
        · split
          · rename_i n hn
            have hd : (rest.drop n).length ≤ rest.length := by
              simp [List.length_drop]
            exact ih (rest.drop n) g (by omega) (by omega)
          · exact congrArg (List.cons '(') (ih rest g (by omega) (by omega))
        · exact congrArg (List.cons c) (ih rest g (by omega) (by omega))

theorem removeTimersGo_copy (A : List Char) : ∀ (fuel : Nat) (w : List Char),
    (∀ c ∈ A, ¬ c = '·') → (A ++ '(' :: w).length ≤ fuel →
    removeTimersGo fuel (A ++ '(' :: w) = A ++ removeTimersGo (fuel - A.length) ('(' :: w) := by
  induction A with
  | nil =>
    intro fuel w hA hf
    simp
  | cons a A2 ih =>
    intro fuel w hA hf
    simp only [List.cons_append, List.length_cons] at hf ⊢
    cases fuel with
    | zero => simp at hf
    | succ f =>
      simp only [removeTimersGo]
      have hA2 : ∀ c ∈ A2, ¬ c = '·' := fun c hc => hA c (List.mem_cons_of_mem a hc)
      have hf2 : (A2 ++ '(' :: w).length ≤ f := by
        simp only [List.length_append, List.length_cons] at hf ⊢
        omega
      have hsub : f + 1 - (A2.length + 1) = f - A2.length := by omega
      by_cases ha : a = '('
      · subst ha
        rw [timerLen_none_nocdot A2 w hA2, ih f w hA2 hf2, hsub]
        simp
      · rw [if_neg ha, ih f w hA2 hf2, hsub]

theorem contains_false_of_not_mem (l : List Char) (h : ∀ c ∈ l, ¬ c = '⏺') :
    l.contains '⏺' = false := by
  simp [List.contains]
  intro h2
  exact absurd rfl (h _ h2)

theorem stripSymbolLine_id (l : List Char) (h : ∀ c ∈ l, ¬ c = '⏺') :
    stripSymbolLine l = l := by
  unfold stripSymbolLine
  rw [contains_false_of_not_mem l h]
  simp

theorem mapLinesAux_copy (cs : List Char) : ∀ acc,
    (∀ c ∈ acc, ¬ c = '⏺') → (∀ c ∈ cs, ¬ c = '⏺') →
    mapLinesAux stripSymbolLine acc cs = acc.reverse ++ cs := by
  induction cs with
  | nil =>
    intro acc hacc _
    simp only [mapLinesAux, List.append_nil]
    exact stripSymbolLine_id acc.reverse (fun c hc => hacc c (by simpa using hc))
  | cons c rest ih =>
    intro acc hacc hcs
    have hc : ¬ c = '⏺' := hcs c (List.mem_cons_self c rest)
    have hrest : ∀ x ∈ rest, ¬ x = '⏺' := fun x hx => hcs x (List.mem_cons_of_mem c hx)
    by_cases ht : isLineTerm c = true
    · simp only [mapLinesAux, ht, if_true]
      rw [stripSymbolLine_id acc.reverse (fun x hx => hacc x (by simpa using hx)),
        ih [] (by simp) hrest]
      simp
    · simp only [mapLinesAux, ht]
      simp only [Bool.not_eq_true] at ht
      simp only [ht, Bool.false_eq_true, if_false]
      rw [ih (c :: acc) (by
        intro x hx
        rcases List.mem_cons.mp hx with h | h
        · rw [h]; exact hc
        · exact hacc x h) hrest]
      simp

theorem mapLines_id (cs : List Char) (h : ∀ c ∈ cs, ¬ c = '⏺') :
    mapLines stripSymbolLine cs = cs := by
  unfold mapLines
  rw [mapLinesAux_copy cs [] (by simp) h]
  simp

theorem anySuffix_false (p : List Char → Bool) (cs : List Char)
    (h : anySuffix p cs = false) : ∀ z, z <:+ cs → p z = false := by
  induction cs with
  | nil =>
    intro z hz
    rw [List.suffix_nil.mp hz]
    simpa [anySuffix] using h
  | cons c rest ih =>
    simp only [anySuffix, Bool.or_eq_false_iff] at h
    intro z hz
    rcases List.suffix_cons_iff.mp hz with h2 | h2
    · rw [h2]; exact h.1
    · exact ih h.2 z h2

theorem scanLineEscGo_none (rem : List Char)
    (h : ∀ z, z <:+ rem → escInterruptAt z = false) :
    ∀ idx, scanLineEscGo idx rem none = none := by
  induction rem with
  | nil => intro idx; rfl
  | cons c rest ih =>
    intro idx
    simp only [scanLineEscGo]
    split
    · rfl
    · have hc : escAtLen (c :: rest) = none := by
        have := h (c :: rest) List.suffix_rfl
        unfold escInterruptAt at this
        simpa using this
      rw [hc]
      exact ih (fun z hz => h z (hz.trans (List.suffix_cons c rest))) (idx + 1)

theorem lineEscSpan_none (cs : List Char)
    (h : ∀ z, z <:+ cs → escInterruptAt z = false) : lineEscSpan cs = none := by
  unfold lineEscSpan
  rw [scanLineEscGo_none cs h 0]

theorem drop_takeWhile (l : List Char) (p : Char → Bool) :
    l.drop (l.takeWhile p).length = l.dropWhile p := by
  induction l with
  | nil => rfl
  | cons a l ih =>
    by_cases ha : p a
    · simp [List.takeWhile_cons, List.dropWhile_cons, ha, ih]
    · simp [List.takeWhile_cons, List.dropWhile_cons, ha]

theorem stripEscSpansGo_id (fuel : Nat) : ∀ (cs : List Char),
    (∀ z, z <:+ cs → escInterruptAt z = false) → stripEscSpansGo fuel cs = cs := by
  induction fuel with
  | zero => intro cs _; rfl
  | succ f ih =>
    intro cs h
    cases cs with
    | nil => rfl
    | cons c rest =>
      simp only [stripEscSpansGo]
      rw [lineEscSpan_none (c :: rest) h]
      simp only []
      rw [drop_takeWhile]
      have hdec := List.takeWhile_append_dropWhile (fun x => !isLineTerm x) (c :: rest)
      cases hdw : (c :: rest).dropWhile (fun x => !isLineTerm x) with
      | nil =>
        rw [hdw, List.append_nil] at hdec
        exact hdec
      | cons t rest2 =>
        rw [hdw] at hdec
        have hsuf : rest2 <:+ c :: rest :=
          List.IsSuffix.trans (List.suffix_cons t rest2)
            ⟨(c :: rest).takeWhile (fun x => !isLineTerm x), hdec⟩
        have hrec := ih rest2 (fun z hz => h z (hz.trans hsuf))
        show (c :: rest).takeWhile (fun x => !isLineTerm x) ++ t :: stripEscSpansGo f rest2 =
          c :: rest
        rw [hrec]
        exact hdec

theorem stripEscSpans_id (cs : List Char) (h : hasEscInterruptL cs = false) :
    stripEscSpans cs = cs :=
  stripEscSpansGo_id cs.length cs (anySuffix_false escInterruptAt cs h)

theorem norm_subst_mark (pre post l1 l2 : List Char)
    (h1 : ∀ c ∈ l1, isLineTerm c = false) (h2 : ∀ c ∈ l2, isLineTerm c = false)
    (hm1 : l1.contains '⏺' = true) (hm2 : l2.contains '⏺' = true) :
    normalizeBufferContent (String.mk (pre ++ '\n' :: (l1 ++ '\n' :: post))) =
    normalizeBufferContent (String.mk (pre ++ '\n' :: (l2 ++ '\n' :: post))) := by
  unfold normalizeBufferContent
  rw [if_neg (mk_ne_empty _ (by simp)), if_neg (mk_ne_empty _ (by simp))]
  rw [show (String.mk (pre ++ '\n' :: (l1 ++ '\n' :: post))).toList =
      pre ++ '\n' :: (l1 ++ '\n' :: post) from rfl,
    show (String.mk (pre ++ '\n' :: (l2 ++ '\n' :: post))).toList =
      pre ++ '\n' :: (l2 ++ '\n' :: post) from rfl]
  have hp1 : mapLines stripSymbolLine (pre ++ '\n' :: (l1 ++ '\n' :: post)) =
      mapLines stripSymbolLine (pre ++ '\n' :: (l2 ++ '\n' :: post)) := by
    obtain ⟨u, hu⟩ := mapLinesAux_decomp stripSymbolLine pre []
    unfold mapLines
    rw [hu, hu, mapLinesAux_line _ l1 h1, mapLinesAux_line _ l2 h2]
    simp only [List.reverse_nil, List.nil_append]
    rw [show stripSymbolLine l1 = [] from by unfold stripSymbolLine; rw [if_pos hm1],
      show stripSymbolLine l2 = [] from by unfold stripSymbolLine; rw [if_pos hm2]]
  rw [hp1]

theorem removeTimers_around (A B ds ws b : List Char)
    (hA : ∀ c ∈ A, ¬ c = '·')
    (hds : ¬ ds = []) (hdig : ∀ c ∈ ds, c.isDigit = true)
    (hws : ∀ c ∈ ws, isJsWhite c = true) (hb : ∀ c ∈ b, (!(c = ')')) = true) :
    removeTimers (A ++ timerToken ds ws b ++ B) = A ++ removeTimersGo B.length B := by
  have hshape : A ++ timerToken ds ws b ++ B =
      A ++ '(' :: (ds ++ 's' :: (ws ++ '·' :: (b ++ ')' :: B))) := by
    simp [timerToken]
  unfold removeTimers
  rw [hshape]
  rw [removeTimersGo_copy A _ _ hA (le_refl _)]
  have hlen : (A ++ '(' :: (ds ++ 's' :: (ws ++ '·' :: (b ++ ')' :: B)))).length - A.length =
      (ds ++ 's' :: (ws ++ '·' :: (b ++ ')' :: B))).length + 1 := by
    simp only [List.length_append, List.length_cons]
    omega
  rw [hlen]
  have hstep : removeTimersGo ((ds ++ 's' :: (ws ++ '·' :: (b ++ ')' :: B))).length + 1)
      ('(' :: (ds ++ 's' :: (ws ++ '·' :: (b ++ ')' :: B)))) = removeTimersGo B.length B := by
    simp only [removeTimersGo, if_pos]
    rw [timerLen_token ds ws b B hds hdig hws hb]
    have hsplit : ds ++ 's' :: (ws ++ '·' :: (b ++ ')' :: B)) =
        (ds ++ 's' :: (ws ++ '·' :: (b ++ [')']))) ++ B := by
      simp
    have hn : ds.length + 1 + ws.length + 1 + b.length + 1 =
        (ds ++ 's' :: (ws ++ '·' :: (b ++ [')']))).length := by
      simp only [List.length_append, List.length_cons, List.length_nil]
      omega
    rw [hsplit, hn]
    show removeTimersGo ((ds ++ 's' :: (ws ++ '·' :: (b ++ [')']))) ++ B).length
        (((ds ++ 's' :: (ws ++ '·' :: (b ++ [')']))) ++ B).drop
          (ds ++ 's' :: (ws ++ '·' :: (b ++ [')']))).length) = removeTimersGo B.length B
    rw [List.drop_left]
    apply removeTimersGo_fuel
    · simp only [List.length_append, List.length_cons]
      omega
    · exact le_refl _
  rw [hstep]

theorem norm_subst_timer (A B ds1 ws1 b1 ds2 ws2 b2 : List Char)
    (hA : ∀ c ∈ A, ¬ c = '·')
    (hds1 : ¬ ds1 = []) (hdig1 : ∀ c ∈ ds1, c.isDigit = true)
    (hws1 : ∀ c ∈ ws1, isJsWhite c = true) (hb1 : ∀ c ∈ b1, (!(c = ')')) = true)
    (hds2 : ¬ ds2 = []) (hdig2 : ∀ c ∈ ds2, c.isDigit = true)
    (hws2 : ∀ c ∈ ws2, isJsWhite c = true) (hb2 : ∀ c ∈ b2, (!(c = ')')) = true)
    (hsym1 : ∀ c ∈ A ++ timerToken ds1 ws1 b1 ++ B, ¬ c = '⏺')
    (hsym2 : ∀ c ∈ A ++ timerToken ds2 ws2 b2 ++ B, ¬ c = '⏺')
    (hesc1 : hasEscInterruptL (A ++ timerToken ds1 ws1 b1 ++ B) = false)
    (hesc2 : hasEscInterruptL (A ++ timerToken ds2 ws2 b2 ++ B) = false) :
    normalizeBufferContent (String.mk (A ++ timerToken ds1 ws1 b1 ++ B)) =
    normalizeBufferContent (String.mk (A ++ timerToken ds2 ws2 b2 ++ B)) := by
  unfold normalizeBufferContent
  rw [if_neg (mk_ne_empty _ (by simp [timerToken])),
    if_neg (mk_ne_empty _ (by simp [timerToken]))]
  rw [show (String.mk (A ++ timerToken ds1 ws1 b1 ++ B)).toList =
      A ++ timerToken ds1 ws1 b1 ++ B from rfl,
    show (String.mk (A ++ timerToken ds2 ws2 b2 ++ B)).toList =
      A ++ timerToken ds2 ws2 b2 ++ B from rfl]
  rw [mapLines_id _ hsym1, mapLines_id _ hsym2, stripEscSpans_id _ hesc1,
    stripEscSpans_id _ hesc2,
    removeTimers_around A B ds1 ws1 b1 hA hds1 hdig1 hws1 hb1,
    removeTimers_around A B ds2 ws2 b2 hA hds2 hdig2 hws2 hb2]

/-! Concrete agents used by witnesses and counterexamples. -/

/-- An active agent with a bound PTY (pid 7) and the given buffers. -/
def mkAgent (buffer lastSent : String) : Agent :=
  { initialAgent "t1" "chat1" "list files" 0 with
      status := .active, ptyProcess := some 7,
      outputBuffer := buffer, lastSentBuffer := lastSent,
      lastLines := ["ready"], lastSentOutput := "" }

/-- A 1100-character buffer, above the 1000-character threshold. -/
def bigBuf : String := String.mk (List.replicate 1100 'a')

/-- A 600-character buffer, below the 1000-character threshold. -/
def smallBuf : String := String.mk (List.replicate 600 'b')

/-- An agent holding 20 history entries and a flush-ready buffer. -/
def c5Agent : Agent :=
  { mkAgent bigBuf "" with conversationHistory := List.replicate 20 ⟨.user, "m", 0⟩ }

/-- A completed agent (its process exited) retaining its context. -/
def doneAgent : Agent :=
  { mkAgent "pending tail" "x" with
      status := .completed, ptyProcess := none,
      exitCode := some 0, exitSignal := none, completedAt := some 5,
      fullOutput := "previous run output",
      conversationHistory := [⟨.user, "list files", 0⟩, ⟨.claude, "done", 3⟩] }

/-- An agent showing a spinner timer frame with an uppercase `S` in its buffer. -/
def procAgent : Agent := mkAgent "✻ Exploring… (3S · details)" ""

/-- Two `createAgent` calls for the same conversation. -/
def c2Calls : List CreateCall :=
  [⟨"chat1", "t1", "ls", 0, true, 1⟩, ⟨"chat1", "t2", "pwd", 1, true, 2⟩]

/-- The record the registry holds after the second call of `c2Calls`. -/
def c2AgentFinal : Agent := (createSessionModel (initialAgent "t2" "chat1" "pwd" 1) "pwd" true 2).1

/-- A 1054-character prefix line ending in ` esc`. -/
def c6Pre : List Char := List.replicate 1050 'a' ++ " esc".toList
/-- A turn-marker line. -/
def c6Mark : List Char := "⏺ Reading".toList
/-- An interrupt-hint line (one spinner frame). -/
def c6Hint : List Char := "✻ Pondering (esc to interrupt)".toList
/-- A suffix line starting with `to interrupt`. -/
def c6Post : List Char := "to interrupt done listing files".toList
/-- The counterexample agent: marker-line buffer current, hint-line buffer last sent. -/
def c6CtrAgent : Agent :=
  mkAgent (String.mk (c6Pre ++ '\n' :: (c6Mark ++ '\n' :: c6Post)))
          (String.mk (c6Pre ++ '\n' :: (c6Hint ++ '\n' :: c6Post)))

/-- An agent whose buffers differ only in one turn-marker line. -/
def markAgent : Agent :=
  mkAgent (String.mk ("step one".toList ++ '\n' :: ("⏺ Compiling (3s)".toList ++ '\n' :: "step two".toList)))
          (String.mk ("step one".toList ++ '\n' :: ("⏺ Compiling (9s)".toList ++ '\n' :: "step two".toList)))

/-- An agent whose buffers differ only in one elapsed-time timer token. -/
def timAgent : Agent :=
  mkAgent (String.mk ("Result: ".toList ++ timerToken "3".toList " ".toList "thinking".toList ++ " done.".toList))
          (String.mk ("Result: ".toList ++ timerToken "12".toList " ".toList "more".toList ++ " done.".toList))

/-! The claims. -/

/-- C1 (amended): a `pendingOutputBuffer` of 1000 characters or fewer yields no
`agent-output` event and is left unflushed in every detection pass —
whether or not the pass is the forced one run on process exit.  The
`forceSend` flag bypasses only the overlapping-check guard and the
unchanged/empty-`lastLines` skips, not the detector's threshold gate. -/
theorem claim_c1_threshold_gate (a : Agent) (force : Bool) (now : Nat)
    (h : a.outputBuffer.length ≤ 1000) :
    (checkAndSendOutput a force now).2 = [] ∧
    (checkAndSendOutput a force now).1.outputBuffer = a.outputBuffer := by
  unfold checkAndSendOutput checkAndSendOutputGen
  simp only []
  split
  · simp
  · split
    · simp
    · split
      · simp
      · have hd := detect_small { a with isCheckingOutput := true } h
        simp [detectOk, hd]

set_option maxRecDepth 100000 in
/-- C1 counterexample: a forced (process-exit) detection pass on a 600-character
buffer that satisfies every other flush condition — not processing,
normalized content entirely new, length difference far above 50 — still
emits nothing, so the forced pass does not bypass the threshold gate. -/
theorem claim_c1_counterexample :
    (checkAndSendOutput (mkAgent smallBuf "") true 0).2 = [] ∧
    (mkAgent smallBuf "").outputBuffer.length ≤ 1000 ∧
    0 < (mkAgent smallBuf "").outputBuffer.length ∧
    isClaudeProcessing (mkAgent smallBuf "").outputBuffer = false ∧
    normalizeBufferContent (mkAgent smallBuf "").outputBuffer ≠
      normalizeBufferContent (mkAgent smallBuf "").lastSentBuffer ∧
    50 < absDiff (normalizeBufferContent (mkAgent smallBuf "").outputBuffer).length
      (normalizeBufferContent (mkAgent smallBuf "").lastSentBuffer).length := by
  decide

/-- C1 witness: the amended threshold-gate theorem applied to a concrete
5-character buffer in a non-forced pass. -/
theorem claim_c1_witness :
    (checkAndSendOutput (mkAgent "hello" "") false 2).2 = [] ∧
    (checkAndSendOutput (mkAgent "hello" "") false 2).1.outputBuffer =
      (mkAgent "hello" "").outputBuffer :=
  claim_c1_threshold_gate (mkAgent "hello" "") false 2 (by decide)

/-- C2: after any finite sequence of `createAgent` calls starting from the
empty registry, at most one agent per conversation is in
`Initializing`/`Active`: any two live entries with the same `chatId` are
the same entry, because `createAgent` first kills and removes every agent
of that conversation before inserting the new record. -/
theorem claim_c2_single_session (calls : List CreateCall) :
    atMostOneLivePerChat (applyCreates emptyRegistry calls) :=
  applyCreates_preserves calls emptyRegistry empty_inv

/-- C2 witness: the invariant applied to two concrete creations for `chat1`;
the only live entry after both is `t2`. -/
theorem claim_c2_witness : ("t2" : String) = "t2" :=
  claim_c2_single_session c2Calls "t2" "t2" c2AgentFinal c2AgentFinal rfl rfl rfl
    (Or.inr rfl) (Or.inr rfl)

/-- C3: `sendCommand` on a `completed` agent (or one without a live PTY
process) restarts it in place: the record passes through `initializing`
(status, exit code, exit signal and completion time reset), a fresh PTY
session is spawned and set `active`, the writes go to the new process —
the command text followed by the Enter key — no write targets the dead
handle, and `conversationHistory` (as the record equality shows) is
exactly what it was before the restart. -/
theorem claim_c3_restart_with_command (a : Agent) (cmd : String) (now pid : Nat)
    (h : a.status = .completed ∨ a.ptyProcess = none) :
    (restartReset a).status = .initializing ∧
    managerSendCommand a cmd now pid true =
      .ok ⟨{ a with status := .active, exitCode := none, exitSignal := none,
                    completedAt := none, ptyProcess := some pid },
           [], [(pid, cmd), (pid, "\r")], false⟩ :=
  ⟨rfl, restart_ok a cmd now pid h⟩

/-- C3 witness: restarting a concrete completed agent with the command "y". -/
theorem claim_c3_witness :
    (restartReset doneAgent).status = .initializing ∧
    managerSendCommand doneAgent "y" 9 42 true =
      .ok ⟨{ doneAgent with status := .active, exitCode := none, exitSignal := none,
                            completedAt := none, ptyProcess := some 42 },
           [], [(42, "y"), (42, "\r")], false⟩ :=
  claim_c3_restart_with_command doneAgent "y" 9 42 (Or.inl rfl)

/-- C4: over any trace of PTY-output callbacks, detection passes, process
exits and user commands, the concatenation of all `agent-output.text`
payloads followed by the residual `outputBuffer` equals `fullOutput`:
each flush carries exactly the text accumulated since the previous flush,
the buffer is cleared in the same step, and no byte range is emitted
twice. -/
theorem claim_c4_no_double_flush (taskId chatId task : String) (now0 pid0 : Nat)
    (ops : List SessionOp) :
    String.join (outputTexts (runSession taskId chatId task now0 pid0 ops).2) ++
      (runSession taskId chatId task now0 pid0 ops).1.outputBuffer =
    (runSession taskId chatId task now0 pid0 ops).1.fullOutput := by
  unfold runSession
  apply run_inv
  rfl

/-- C5 (amended): histories maintained through
`SessionManager.addToConversationHistory` are bounded: starting from an
empty history, any append sequence leaves exactly the last
`min(length, 20)` appended entries, in order — length never exceeds 20
and eviction is FIFO.  (The appends performed directly by
`checkAndSendOutput` and `PTYSessionHandler.sendCommand` on the agent
record do not evict; see the counterexample.) -/
theorem claim_c5_history_bound (es : List HistEntry) :
    es.foldl addToHistory [] = es.drop (es.length - 20) ∧
    (es.foldl addToHistory []).length = min es.length 20 := by
  have h := foldl_addToHistory es [] (by simp)
  simp only [List.nil_append] at h
  refine ⟨h, ?_⟩
  rw [h]
  simp only [List.length_drop]
  omega

set_option maxRecDepth 100000 in
/-- C5 counterexample: the history append performed by the flush path of
`checkAndSendOutput` (part_002, lines 447–451) does not evict: an agent
already holding 20 entries ends the pass with 21, so the agent record's
`conversationHistory` is not bounded by 20 under every history append. -/
theorem claim_c5_counterexample :
    c5Agent.conversationHistory.length = 20 ∧
    (checkAndSendOutput c5Agent true 0).1.conversationHistory.length = 21 := by
  decide

/-- C6 (amended): progress-animation churn inside stable content does not by
itself trigger a flush, in two families the detector provably equalizes:
substituting one turn-marker line (a line containing the `⏺` marker) for
another between unchanged surrounding lines, and substituting one elapsed-time
timer token `(<digits>s<ws>·<body>)` for another inside a line, provided the
buffer has no `⏺` marker, no `·` before the token and no match of the
cross-line interrupt-hint pattern, yield equal `normalizeBufferContent`
results and `hasNewOutput = false`.  Substituting an interrupt-hint line is
NOT noise-invariant: the hint-stripping pattern matches across line
terminators, so the replacement can merge with surrounding text into a
cross-line match that deletes different spans from the two buffers (see the
counterexample).  In all cases a positive flush decision requires the
normalized buffers to differ with absolute length difference above 50. -/
theorem claim_c6_animation_noise :
    (∀ (a : Agent) (pre post l1 l2 : List Char),
      (∀ c ∈ l1, isLineTerm c = false) → (∀ c ∈ l2, isLineTerm c = false) →
      l1.contains '⏺' = true → l2.contains '⏺' = true →
      a.outputBuffer = String.mk (pre ++ '\n' :: (l1 ++ '\n' :: post)) →
      a.lastSentBuffer = String.mk (pre ++ '\n' :: (l2 ++ '\n' :: post)) →
      normalizeBufferContent a.outputBuffer = normalizeBufferContent a.lastSentBuffer ∧
      (detectNewCommandOutput a).hasNewOutput = false) ∧
    (∀ (a : Agent) (A B ds1 ws1 b1 ds2 ws2 b2 : List Char),
      (∀ c ∈ A, ¬ c = '·') →
      ¬ ds1 = [] → (∀ c ∈ ds1, c.isDigit = true) → (∀ c ∈ ws1, isJsWhite c = true) →
      (∀ c ∈ b1, (!(c = ')')) = true) →
      ¬ ds2 = [] → (∀ c ∈ ds2, c.isDigit = true) → (∀ c ∈ ws2, isJsWhite c = true) →
      (∀ c ∈ b2, (!(c = ')')) = true) →
      (∀ c ∈ A ++ timerToken ds1 ws1 b1 ++ B, ¬ c = '⏺') →
      (∀ c ∈ A ++ timerToken ds2 ws2 b2 ++ B, ¬ c = '⏺') →
      hasEscInterruptL (A ++ timerToken ds1 ws1 b1 ++ B) = false →
      hasEscInterruptL (A ++ timerToken ds2 ws2 b2 ++ B) = false →
      a.outputBuffer = String.mk (A ++ timerToken ds1 ws1 b1 ++ B) →
      a.lastSentBuffer = String.mk (A ++ timerToken ds2 ws2 b2 ++ B) →
      normalizeBufferContent a.outputBuffer = normalizeBufferContent a.lastSentBuffer ∧
      (detectNewCommandOutput a).hasNewOutput = false) ∧
    (∀ b : Agent, (detectNewCommandOutput b).hasNewOutput = true →
      normalizeBufferContent b.outputBuffer ≠ normalizeBufferContent b.lastSentBuffer ∧
      50 < absDiff (normalizeBufferContent b.outputBuffer).length
        (normalizeBufferContent b.lastSentBuffer).length) := by
  refine ⟨?_, ?_, ?_⟩
  · intro a pre post l1 l2 h1 h2 hm1 hm2 hbuf hlast
    have hnorm : normalizeBufferContent a.outputBuffer =
        normalizeBufferContent a.lastSentBuffer := by
      rw [hbuf, hlast]
      exact norm_subst_mark pre post l1 l2 h1 h2 hm1 hm2
    exact ⟨hnorm, detect_norm_eq a hnorm⟩
  · intro a A B ds1 ws1 b1 ds2 ws2 b2 hA hds1 hdig1 hws1 hb1 hds2 hdig2 hws2 hb2
      hsym1 hsym2 hesc1 hesc2 hbuf hlast
    have hnorm : normalizeBufferContent a.outputBuffer =
        normalizeBufferContent a.lastSentBuffer := by
      rw [hbuf, hlast]
      exact norm_subst_timer A B ds1 ws1 b1 ds2 ws2 b2 hA hds1 hdig1 hws1 hb1
        hds2 hdig2 hws2 hb2 hsym1 hsym2 hesc1 hesc2
    exact ⟨hnorm, detect_norm_eq a hnorm⟩
  · intro b hb
    exact ⟨(detect_hasNew_imp b hb).2.2.1, (detect_hasNew_imp b hb).2.2.2⟩

set_option maxRecDepth 100000 in
/-- C6 counterexample: replacing the interrupt-hint line `✻ Pondering (esc to
interrupt)` by the turn-marker line `⏺ Reading` between a prefix ending in
` esc` and a suffix starting with `to interrupt` is detected as new output:
in the hint buffer the marker-line pass leaves the hint line and the
cross-line hint-stripping pass removes only it, while in the marker buffer
the marker-line pass deletes the `⏺` line first and the hint pattern then
matches from the prefix's `esc` across the newline to the suffix's
`to interrupt`, wiping the surrounding lines — the two buffers normalize to
strings of lengths 0 and 1086 and `hasNewOutput = true`. -/
theorem claim_c6_counterexample :
    c6CtrAgent.outputBuffer = String.mk (c6Pre ++ '\n' :: (c6Mark ++ '\n' :: c6Post)) ∧
    c6CtrAgent.lastSentBuffer = String.mk (c6Pre ++ '\n' :: (c6Hint ++ '\n' :: c6Post)) ∧
    c6Mark.contains '⏺' = true ∧ hasEscInterruptL c6Hint = true ∧
    (∀ c ∈ c6Mark, isLineTerm c = false) ∧ (∀ c ∈ c6Hint, isLineTerm c = false) ∧
    isClaudeProcessing c6CtrAgent.outputBuffer = false ∧
    (detectNewCommandOutput c6CtrAgent).hasNewOutput = true := by
  refine ⟨rfl, rfl, by decide, by decide, by decide, by decide, by decide, by decide⟩

set_option maxRecDepth 100000 in
/-- C6 witness: the marker-line family applied to a `⏺ Compiling (3s)` versus
`⏺ Compiling (9s)` frame, the timer family applied to `(3s · thinking)`
versus `(12s · more)` inside `Result: … done.`, and the difference condition
applied to an above-threshold all-new buffer. -/
theorem claim_c6_witness :
    (normalizeBufferContent markAgent.outputBuffer =
       normalizeBufferContent markAgent.lastSentBuffer ∧
     (detectNewCommandOutput markAgent).hasNewOutput = false) ∧
    (normalizeBufferContent timAgent.outputBuffer =
       normalizeBufferContent timAgent.lastSentBuffer ∧
     (detectNewCommandOutput timAgent).hasNewOutput = false) ∧
    normalizeBufferContent (mkAgent bigBuf "").outputBuffer ≠
      normalizeBufferContent (mkAgent bigBuf "").lastSentBuffer := by
  obtain ⟨h1, h2, h3⟩ := claim_c6_animation_noise
  refine ⟨h1 markAgent "step one".toList "step two".toList "⏺ Compiling (3s)".toList
      "⏺ Compiling (9s)".toList (by decide) (by decide) (by decide) (by decide) rfl rfl,
    h2 timAgent "Result: ".toList " done.".toList "3".toList " ".toList "thinking".toList
      "12".toList " ".toList "more".toList (by decide) (by decide) (by decide) (by decide)
      (by decide) (by decide) (by decide) (by decide) (by decide) (by decide) (by decide)
      (by decide) (by decide) rfl rfl, ?_⟩
  exact (h3 (mkAgent bigBuf "") (by decide)).1

/-- C7: whenever any processing marker matches the buffer — the interrupt-hint
pattern, the spinner-token-plus-elapsed-time pattern, or the
Waiting/Running/Processing/Exploring status pattern — the detector
classifies the agent as processing and returns `shouldFlush = false`,
regardless of the buffer's size or its difference from the last flush. -/
theorem claim_c7_processing_veto (a : Agent)
    (h : hasEscToInterrupt a.outputBuffer = true ∨ hasActiveTimer a.outputBuffer = true ∨
         hasActiveStatus a.outputBuffer = true) :
    isClaudeProcessing a.outputBuffer = true ∧
    (detectNewCommandOutput a).hasNewOutput = false := by
  have hp : isClaudeProcessing a.outputBuffer = true := by
    unfold isClaudeProcessing
    rcases h with h | h | h <;> simp [h]
  exact ⟨hp, detect_processing a hp⟩

/-- C7 witness: a concrete buffer whose only marker is a timer frame written with an uppercase `S` is vetoed. -/
theorem claim_c7_witness :
    isClaudeProcessing procAgent.outputBuffer = true ∧
    (detectNewCommandOutput procAgent).hasNewOutput = false :=
  claim_c7_processing_veto procAgent (Or.inr (Or.inl (by decide)))

/-- C8: if the detection call inside the `try` of `checkAndSendOutput` throws,
the `catch` flushes unconditionally: the pass that reaches the detection
(the guards pass) emits one `agent-output` event carrying the whole
pending buffer, appends it to `conversationHistory`, and clears the
buffer, so no output is silently dropped on the error path. -/
theorem claim_c8_error_fallback (a : Agent) (f : Bool) (now : Nat)
    (h1 : a.isCheckingOutput = false ∨ f = true)
    (h2 : f = true ∨ (String.intercalate "\n" a.lastLines ≠ a.lastSentOutput ∧
          (jsTrimStr (String.intercalate "\n" a.lastLines)).length ≠ 0)) :
    checkAndSendOutputGen (fun _ => .error ()) a f now =
      ({ a with isCheckingOutput := false,
                conversationHistory := a.conversationHistory ++ [⟨.claude, a.outputBuffer, now⟩],
                outputBuffer := "" },
       [.agentOutput a.id a.chatId a.outputBuffer]) := by
  unfold checkAndSendOutputGen
  simp only []
  have hg1 : (a.isCheckingOutput && !f) = false := by
    rcases h1 with h | h <;> simp [h]
  rw [hg1]
  simp only [Bool.false_eq_true, if_false]
  rcases h2 with h | h
  · subst h; simp
  · simp [h.1, h.2]

/-- C8 witness: the throwing pass on a concrete agent flushes its buffer. -/
theorem claim_c8_witness :
    checkAndSendOutputGen (fun _ => .error ()) (mkAgent "partial output" "") true 3 =
      ({ mkAgent "partial output" "" with
           isCheckingOutput := false,
           conversationHistory := (mkAgent "partial output" "").conversationHistory ++
             [⟨.claude, "partial output", 3⟩],
           outputBuffer := "" },
       [.agentOutput "t1" "chat1" "partial output"]) :=
  claim_c8_error_fallback (mkAgent "partial output" "") true 3 (Or.inr rfl) (Or.inl rfl)

/-- C9: reserved-token matching in `sendCommand` is case-insensitive — any
command whose upper-cased form is one of ESCAPE, ENTER, EXIT, UP, DOWN,
LEFT or RIGHT is interpreted as the corresponding control keystroke: the
agent record is unchanged (no `conversationHistory` entry), exactly one
control sequence is written with no trailing carriage-return submit, and
the manager schedules no follow-up check — so the string is never
delivered to the process as literal text. -/
theorem claim_c9_reserved_case_insensitive (a : Agent) (p : Nat) (cmd : String) (now : Nat)
    (hp : a.ptyProcess = some p) (hs : a.status = .active)
    (hr : strToUpper cmd ∈ reservedTokens) :
    ptySendCommand a cmd now = .ok (a, [(p, ctrlSequence (strToUpper cmd))]) ∧
    ∀ pid ok, managerSendCommand a cmd now pid ok =
      .ok ⟨a, [], [(p, ctrlSequence (strToUpper cmd))], false⟩ := by
  have hcases : strToUpper cmd = "ESCAPE" ∨ strToUpper cmd = "ENTER" ∨ strToUpper cmd = "EXIT" ∨
      strToUpper cmd = "UP" ∨ strToUpper cmd = "DOWN" ∨ strToUpper cmd = "LEFT" ∨
      strToUpper cmd = "RIGHT" := by
    simpa [reservedTokens] using hr
  have hpty : ptySendCommand a cmd now = .ok (a, [(p, ctrlSequence (strToUpper cmd))]) := by
    unfold ptySendCommand
    rw [hp]
    rcases hcases with h | h | h | h | h | h | h <;> rw [h] <;> simp [hs, ctrlSequence, h]
  refine ⟨hpty, fun pid ok => ?_⟩
  unfold managerSendCommand
  have h1 : (decide (a.status = .completed) || decide (a.ptyProcess = none)) = false := by
    simp [hs, hp]
  rw [h1]
  simp only [Bool.false_eq_true, if_false, hpty]
  have h2 : reservedTokens.contains (strToUpper cmd) = true := by
    rcases hcases with h | h | h | h | h | h | h <;> rw [h] <;> simp [reservedTokens]
  simp [h2]
  exact hr

/-- C9 witness: the lower-case command "up" is sent as the Up-arrow control
sequence, leaving the agent record untouched. -/
theorem claim_c9_witness :
    ptySendCommand (mkAgent "" "") "up" 4 =
      .ok (mkAgent "" "", [(7, ctrlSequence (strToUpper "up"))]) ∧
    managerSendCommand (mkAgent "" "") "up" 4 0 true =
      .ok ⟨mkAgent "" "", [], [(7, ctrlSequence (strToUpper "up"))], false⟩ := by
  have h := claim_c9_reserved_case_insensitive (mkAgent "" "") 7 "up" 4 rfl rfl (by decide)
  exact ⟨h.1, h.2 0 true⟩

/-- C10: the restart path of `sendCommand` resets exactly `status`,
`exitCode`, `exitSignal` and `completedAt` (and binds the fresh process):
`id`, `chatId`, `fullOutput`, `outputBuffer`, `lastSentBuffer`,
`lastLines` and `conversationHistory` are all unchanged at the moment of
restart, so the `agent-complete` event of a later exit reports a
`fullOutput` that extends the previous run's output. -/
theorem claim_c10_restart_frame (a : Agent) (cmd : String) (now pid : Nat)
    (h : a.status = .completed ∨ a.ptyProcess = none) :
    ∃ out, managerSendCommand a cmd now pid true = .ok out ∧
      out.agent.id = a.id ∧ out.agent.chatId = a.chatId ∧
      out.agent.fullOutput = a.fullOutput ∧ out.agent.outputBuffer = a.outputBuffer ∧
      out.agent.lastSentBuffer = a.lastSentBuffer ∧ out.agent.lastLines = a.lastLines ∧
      out.agent.conversationHistory = a.conversationHistory ∧
      out.agent.exitCode = none ∧ out.agent.exitSignal = none ∧
      out.agent.completedAt = none ∧
      ∀ (chunks : List String) (code : Int) (sig : Option Int) (now2 : Nat),
        completePayloads (handleExit (chunks.foldl handleOutputAgent out.agent) code sig now2).2 =
          [(a.id, code, a.fullOutput ++ String.join chunks)] := by
  refine ⟨⟨{ a with status := .active, exitCode := none, exitSignal := none,
                    completedAt := none, ptyProcess := some pid },
           [], [(pid, cmd), (pid, "\r")], false⟩,
          restart_ok a cmd now pid h, rfl, rfl, rfl, rfl, rfl, rfl, rfl, rfl, rfl, rfl, ?_⟩
  intro chunks code sig now2
  rw [handleExit_completes]
  obtain ⟨h1, h2⟩ := foldl_handleOutput chunks _
  rw [h1, h2]

/-- C10 witness: restarting a concrete completed agent preserves its history,
and a later exit reports the previous output extended by the new chunks. -/
theorem claim_c10_witness :
    ∃ out, managerSendCommand doneAgent "y" 9 42 true = .ok out ∧
      out.agent.conversationHistory = doneAgent.conversationHistory ∧
      completePayloads
        (handleExit (["chunk1", "chunk2"].foldl handleOutputAgent out.agent) 0 none 11).2 =
        [(doneAgent.id, 0, doneAgent.fullOutput ++ String.join ["chunk1", "chunk2"])] := by
  obtain ⟨out, h1, h2, h3, h4, h5, h6, h7, h8, h9, h10, h11, h12⟩ :=
    claim_c10_restart_frame doneAgent "y" 9 42 (Or.inl rfl)
  exact ⟨out, h1, h8, h12 ["chunk1", "chunk2"] 0 none 11⟩
